import Mathlib

/-!
Verification of `tools/fetch_mast_24h.py` (MAST/CAOM JWST exoplanet fetcher).

The script is a sequential batch job: load a whitelist CSV, split a UTC time
window into slices, query the archive per slice with retry/backoff and
pagination, filter rows by normalized target name, de-duplicate, and write a
JSON envelope.  This file gives a shallow embedding of each of those pieces
and proves (or refutes) the frozen claims about them.

Modelling conventions:
* Python floats used for times are modelled as exact rationals (`ℚ`); every
  concrete value appearing in a claim is exactly representable.
* A JSON field value is `Option JVal`; `none` models Python `None` (a JSON
  `null` or a missing key retrieved by `dict.get`).  Python truthiness of
  such a value is `optTruthy`.
* `target_name` is modelled as `Option String` (string or null/missing),
  matching the values the archive actually returns for that column.
* The network client is a stub: for the retry loop, a function from the
  0-based attempt index to a result; for the pagination/slice loops, a
  function from the 0-based slice index to the list of successive page
  results of that slice (an exhausted stub list behaves as an empty page).
* Strings use Lean's ASCII `Char.toLower` / `Char.isAlphanum` /
  `Char.isAlpha`, which agree with Python's on the ASCII inputs involved.
-/

namespace MastFetch

/-- JSON scalar values as the Python script sees them after `json.loads`
(numbers, strings, booleans); `null`/missing are handled by `Option`. -/
inductive JVal where
  | jnum (q : ℚ)
  | jstr (s : String)
  | jbool (b : Bool)
deriving DecidableEq, Repr

/-- Python truthiness of a JSON scalar (`0`, `""`, `False` are falsy). -/
def JVal.truthy : JVal → Bool
  | .jnum q => q != 0
  | .jstr s => s != ""
  | .jbool b => b

/-- Python truthiness of an optional field value; `None` is falsy. -/
def optTruthy : Option JVal → Bool
  | none => false
  | some v => v.truthy

/-- One archive row with the projected columns requested by the script
(`obs_collection,obsid,obs_id,proposal_id,instrument_name,target_name,t_min,t_max`). -/
structure Row where
  obs_collection : Option String
  obsid : Option JVal
  obs_id : Option JVal
  proposal_id : Option String
  instrument_name : Option String
  target_name : Option String
  t_min : Option JVal
  t_max : Option JVal
deriving DecidableEq, Repr

/-- Result of a fallible call: a value, or the message of the Python
exception that propagated. -/
inductive Res (α : Type) where
  | ok (v : α)
  | err (e : String)
deriving DecidableEq, Repr

/-- Python `str.lower` restricted to ASCII, applied characterwise
(Lean's `Char.toLower` maps exactly `A`–`Z`). -/
def pyLowerStr (s : String) : String :=
  ⟨s.data.map Char.toLower⟩

/-- List-level core of `normalize`: lower-case every character, then keep
only the alphanumeric ones. -/
def normList (l : List Char) : List Char :=
  (l.map Char.toLower).filter (fun ch => ch.isAlphanum)

/-- `normalize` from the source, line 20:
`''.join(ch for ch in (name or '').lower() if ch.isalnum())`.
`none` models Python `None`; `name or ''` yields `''` for `None` and is the
identity (up to the result) on strings. -/
def normalize (name : Option String) : String :=
  ⟨normList (name.getD "").data⟩

theorem char_toLower_toLower (c : Char) : c.toLower.toLower = c.toLower := by
  unfold Char.toLower
  by_cases h : c.toNat ≥ 65 ∧ c.toNat ≤ 90
  · rw [if_pos h]
    have hv : (c.toNat + 32).isValidChar := Or.inl (by omega)
    have ht : (Char.ofNat (c.toNat + 32)).toNat = c.toNat + 32 := by
      rw [Char.ofNat, dif_pos hv]
      rfl
    rw [if_neg]
    rw [ht]
    omega
  · rw [if_neg h, if_neg h]

theorem mem_normList_fixed {l : List Char} {c : Char} (h : c ∈ normList l) :
    c.toLower = c := by
  unfold normList at h
  have hm : c ∈ l.map Char.toLower := List.mem_of_mem_filter h
  obtain ⟨a, _, rfl⟩ := List.mem_map.mp hm
  exact char_toLower_toLower a

theorem normList_idem (l : List Char) : normList (normList l) = normList l := by
  unfold normList
  have hmap : (normList l).map Char.toLower = normList l := by
    have := List.map_congr_left (l := normList l)
      (f := Char.toLower) (g := id) (fun a ha => mem_normList_fixed ha)
    simpa using this
  show ((normList l).map Char.toLower).filter _ = _
  rw [hmap]
  apply List.filter_eq_self.mpr
  intro a ha
  exact List.of_mem_filter ha

/-- C8: `normalize` is idempotent — feeding its output back in changes
nothing — and is case/separator-insensitive on the spec's example:
`normalize("WASP-43") == normalize("wasp43")`. -/
theorem normalize_idempotent_and_case_insensitive :
    (∀ x : Option String, normalize (some (normalize x)) = normalize x) ∧
    normalize (some "WASP-43") = normalize (some "wasp43") := by
  constructor
  · intro x
    show (⟨normList (normalize x).data⟩ : String) = normalize x
    unfold normalize
    rw [show (⟨normList (x.getD "").data⟩ : String).data
          = normList (x.getD "").data from rfl]
    rw [normList_idem]
  · decide

/-- Key type for de-duplication: Python's key is either the `obsid` value
itself or a 3-tuple, and the two shapes never compare equal. -/
abbrev KeyT := JVal ⊕ (Option JVal × Option JVal × Option JVal)

/-- Identity key for de-duplication (Python `k = r.get("obsid") or
(r.get("obs_id"), r.get("t_min"), r.get("t_max"))`): the `obsid` value when
it is truthy, otherwise the composite triple. -/
def dedupKey (r : Row) : KeyT :=
  match r.obsid with
  | some v => if v.truthy then .inl v else .inr (r.obs_id, r.t_min, r.t_max)
  | none => .inr (r.obs_id, r.t_min, r.t_max)

/-- Python's `k in seen` set-membership test, as a boolean list scan. -/
def keyMem (k : KeyT) (seen : List KeyT) : Bool :=
  seen.any (fun x => decide (x = k))

/-- Loop body of the de-duplication pass (source lines 110–114): walk the
accumulated rows, keeping a row only when its key has not been seen. -/
def dedupAux : List Row → List KeyT → List Row
  | [], _ => []
  | r :: rest, seen =>
    if keyMem (dedupKey r) seen then dedupAux rest seen
    else r :: dedupAux rest (dedupKey r :: seen)

/-- De-duplication of the accumulated rows, first-seen order (`seen`/`uniq`
loop of `fetch_jwst_exoplanets`). -/
def dedupRows (rows : List Row) : List Row :=
  dedupAux rows []

theorem dedupAux_sublist (rows : List Row) :
    ∀ seen, List.Sublist (dedupAux rows seen) rows := by
  induction rows with
  | nil => intro seen; simp [dedupAux]
  | cons r rest ih =>
    intro seen
    unfold dedupAux
    by_cases h : keyMem (dedupKey r) seen = true
    · rw [if_pos h]
      exact (ih seen).cons r
    · rw [if_neg h]
      exact (ih (dedupKey r :: seen)).cons₂ r

/-- Python's `set` of whitelist names, modelled as a list with
membership-checked insertion (only membership is ever observed). -/
def setAdd (s : List String) (x : String) : List String :=
  if x ∈ s then s else x :: s

theorem mem_setAdd (s : List String) (x y : String) :
    y ∈ setAdd s x ↔ y = x ∨ y ∈ s := by
  unfold setAdd
  by_cases h : x ∈ s
  · rw [if_pos h]
    constructor
    · exact Or.inr
    · rintro (rfl | hy)
      · exact h
      · exact hy
  · rw [if_neg h]
    exact List.mem_cons

/-- Filtering step applied to each page (source lines 100–103): keep a row
exactly when its normalized target name is in the whitelist. -/
def filterRows (wl : List String) (data : List Row) : List Row :=
  data.filter (fun r => decide (normalize r.target_name ∈ wl))

/-- Concrete rows for the dedup claims: identical truthy `obsid`. -/
def rowObs1A : Row :=
  ⟨some "JWST", some (.jnum 7), some (.jstr "a"), some "p1", some "NIRCam",
    some "WASP-43b", some (.jnum 1), some (.jnum 2)⟩

def rowObs1B : Row :=
  ⟨some "JWST", some (.jnum 7), some (.jstr "b"), some "p2", some "MIRI",
    some "WASP-43b", some (.jnum 3), some (.jnum 4)⟩

/-- Concrete rows with `obsid = null` and distinct `(obs_id, t_min, t_max)`. -/
def rowNullA : Row :=
  ⟨some "JWST", none, some (.jstr "a"), none, none,
    some "WASP-43b", some (.jnum 1), some (.jnum 2)⟩

def rowNullB : Row :=
  ⟨some "JWST", none, some (.jstr "b"), none, none,
    some "WASP-43b", some (.jnum 3), some (.jnum 4)⟩

/-- Concrete rows with identical `obsid = 0` (present but falsy) and
distinct `(obs_id, t_min, t_max)` triples. -/
def rowZeroA : Row :=
  ⟨some "JWST", some (.jnum 0), some (.jstr "a"), none, none,
    some "WASP-43b", some (.jnum 1), some (.jnum 2)⟩

def rowZeroB : Row :=
  ⟨some "JWST", some (.jnum 0), some (.jstr "b"), none, none,
    some "WASP-43b", some (.jnum 3), some (.jnum 4)⟩

/-- C3 counterexample: two rows with the identical present `obsid` value `0`
are NOT collapsed into one — Python's `or` treats the falsy `0` as absent
and falls back to their distinct triples, so both rows survive. -/
theorem dedup_identical_obsid_zero_not_collapsed :
    rowZeroA.obsid = rowZeroB.obsid ∧
    dedupRows [rowZeroA, rowZeroB] = [rowZeroA, rowZeroB] ∧
    (dedupRows [rowZeroA, rowZeroB]).length ≠ 1 := by
  refine ⟨rfl, ?_, ?_⟩ <;> decide

/-- C3 (amended): de-duplication keys a row by its `obsid` value when that
value is truthy (present and not `null`/`0`/`""`), else by the triple
`(obs_id, t_min, t_max)`; it preserves first-seen order (the result is a
sublist of the input), collapses two rows with identical truthy `obsid`,
and keeps both of two rows with `obsid = null` but distinct triples. -/
theorem dedup_key_and_behaviour :
    (∀ rows : List Row, List.Sublist (dedupRows rows) rows) ∧
    (∀ r : Row, (∀ v, r.obsid = some v → v.truthy = true → dedupKey r = .inl v) ∧
      (optTruthy r.obsid = false →
        dedupKey r = .inr (r.obs_id, r.t_min, r.t_max))) ∧
    (∀ r₁ r₂ : Row, optTruthy r₁.obsid = true → r₁.obsid = r₂.obsid →
      dedupRows [r₁, r₂] = [r₁]) ∧
    (∀ r₁ r₂ : Row, r₁.obsid = none → r₂.obsid = none →
      (r₁.obs_id, r₁.t_min, r₁.t_max) ≠ (r₂.obs_id, r₂.t_min, r₂.t_max) →
      dedupRows [r₁, r₂] = [r₁, r₂]) := by
  refine ⟨fun rows => dedupAux_sublist rows [], ?_, ?_, ?_⟩
  · intro r
    constructor
    · intro v hv ht
      simp [dedupKey, hv, ht]
    · intro hf
      unfold dedupKey
      match h : r.obsid with
      | none => rfl
      | some v =>
        rw [h] at hf
        simp only [optTruthy] at hf
        simp [hf]
  · intro r₁ r₂ ht he
    match h : r₁.obsid with
    | none => rw [h] at ht; simp [optTruthy] at ht
    | some v =>
      rw [h] at ht
      simp only [optTruthy] at ht
      have hk₁ : dedupKey r₁ = .inl v := by simp [dedupKey, h, ht]
      have hk₂ : dedupKey r₂ = .inl v := by
        simp [dedupKey, ← he, h, ht]
      simp [dedupRows, dedupAux, keyMem, hk₁, hk₂]
  · intro r₁ r₂ h₁ h₂ hne
    have hk₁ : dedupKey r₁ = .inr (r₁.obs_id, r₁.t_min, r₁.t_max) := by
      simp [dedupKey, h₁]
    have hk₂ : dedupKey r₂ = .inr (r₂.obs_id, r₂.t_min, r₂.t_max) := by
      simp [dedupKey, h₂]
    simp [dedupRows, dedupAux, keyMem, hk₁, hk₂, hne]

/-- Witness for `dedup_key_and_behaviour` at concrete rows. -/
theorem dedup_key_and_behaviour_witness :
    dedupRows [rowObs1A, rowObs1B] = [rowObs1A] ∧
    dedupRows [rowNullA, rowNullB] = [rowNullA, rowNullB] ∧
    dedupKey rowObs1A = .inl (.jnum 7) := by
  refine ⟨?_, ?_, ?_⟩
  · exact dedup_key_and_behaviour.2.2.1 rowObs1A rowObs1B (by decide) (by decide)
  · exact dedup_key_and_behaviour.2.2.2 rowNullA rowNullB rfl rfl (by decide)
  · exact (dedup_key_and_behaviour.2.1 rowObs1A).1 (.jnum 7) rfl (by decide)

/-- C10: filtering is total on rows whose `target_name` is missing or
`null`: `normalize` maps them to the empty string (no exception), and such
a row is kept by the page filter iff the empty string is itself in the
whitelist. -/
theorem filter_total_on_null_target (wl : List String) (r : Row)
    (h : r.target_name = none) :
    normalize r.target_name = "" ∧ (r ∈ filterRows wl [r] ↔ "" ∈ wl) := by
  constructor
  · rw [h]; rfl
  · simp [filterRows, h, normalize, normList]

/-- Witness for `filter_total_on_null_target`: a row with a null target
name against the whitelist `["wasp43"]` is discarded. -/
theorem filter_total_on_null_target_witness :
    normalize (Row.target_name ⟨none, none, none, none, none, none, none, none⟩) = "" ∧
    ((⟨none, none, none, none, none, none, none, none⟩ : Row) ∈
      filterRows ["wasp43"] [⟨none, none, none, none, none, none, none, none⟩] ↔
      "" ∈ ["wasp43"]) :=
  filter_total_on_null_target ["wasp43"] ⟨none, none, none, none, none, none, none, none⟩ rfl

/-- Splitting a line of the CSV at commas (the claims involve no quoted
fields, so `csv` field parsing is a plain comma split). -/
def splitCommaAux : List Char → List Char → List (List Char)
  | [], acc => [acc.reverse]
  | c :: rest, acc =>
    if c = ',' then acc.reverse :: splitCommaAux rest []
    else splitCommaAux rest (c :: acc)

/-- Comma-split of one CSV line. -/
def splitComma (s : String) : List String :=
  (splitCommaAux s.data []).map String.mk

/-- Python `str.strip` (ASCII whitespace model): drop leading and trailing
whitespace characters. -/
def pyStrip (s : String) : String :=
  ⟨((s.data.dropWhile Char.isWhitespace).reverse.dropWhile Char.isWhitespace).reverse⟩

/-- Lookup in the Python dict `{h.lower(): h for h in fieldnames}` at key
`name.lower()`: a later duplicate lower-cased header overwrites an earlier
one, hence `getLast?`. -/
def headerLookup (fieldnames : List String) (name : String) : Option String :=
  (fieldnames.filter (fun h => pyLowerStr h = pyLowerStr name)).getLast?

/-- The value `csv.DictReader`'s row dict holds under fieldname `h`.
The reader builds `d = dict(zip(fieldnames, row))` and then pads every
fieldname beyond the row's length with `restval = None`; with duplicate
fieldnames the later assignment wins either way, so the value under `h`
is decided by the LAST index of `h` in `fieldnames`: the row value at
that index when the row is long enough, else `None` (here `none`).
A fieldname absent from the header gives `d.get(h, "") = ""` (unreachable
from `colGet`, which only looks up found headers). -/
def rowGet (fieldnames vals : List String) (h : String) : Option String :=
  match (fieldnames.enum.filter (fun p => p.2 = h)).getLast? with
  | some p => vals.get? p.1
  | none => some ""

/-- `col(row, name)` from `load_whitelist` (source lines 30–31):
`(row.get(h, "") if h else "").strip()` with case-insensitive header
match.  `none` models the `AttributeError` that `.strip()` raises when
`DictReader` padded the field with `None` (row shorter than the header);
a missing header gives `""`. -/
def colGet (fieldnames vals : List String) (name : String) : Option String :=
  match headerLookup fieldnames name with
  | some h =>
    match rowGet fieldnames vals h with
    | some v => some (pyStrip v)
    | none => none
  | none => some ""

/-- Python `str.isalpha` (ASCII model): nonempty and every character a
letter. -/
def pyIsAlpha (s : String) : Bool :=
  !s.data.isEmpty && s.data.all Char.isAlpha

/-- Body of the row loop of `load_whitelist` (source lines 32–39): compute
`host` and `letter` (both computed before the `if host:` test, so either
raising aborts the loader), then add the normalized host and, when the
letter passes `letter and len(letter) == 1 and letter.isalpha()`, the
normalized host+letter.  `err` is the uncaught `AttributeError`. -/
def wlStep (fieldnames : List String) (targets : List String) (line : String) :
    Res (List String) :=
  match colGet fieldnames (splitComma line) "hostname_nn" with
  | none => .err "AttributeError"
  | some host =>
    match colGet fieldnames (splitComma line) "letter_nn" with
    | none => .err "AttributeError"
    | some letter =>
      .ok (if host = "" then targets
        else
          if letter ≠ "" ∧ letter.length = 1 ∧ pyIsAlpha letter = true then
            setAdd (setAdd targets (normalize (some host)))
              (normalize (some (host ++ pyLowerStr letter)))
          else setAdd targets (normalize (some host)))

/-- The row loop of `load_whitelist`: `csv` skips blank lines (an empty
record), any raising row aborts the whole loader. -/
def wlFold (fieldnames : List String) : List String → List String → Res (List String)
  | [], targets => .ok targets
  | line :: rest, targets =>
    if line = "" then wlFold fieldnames rest targets
    else
      match wlStep fieldnames targets line with
      | .ok t => wlFold fieldnames rest t
      | .err e => .err e

/-- `load_whitelist` over the lines of the CSV file: the first line is the
header (`DictReader.fieldnames`), each following line a data row.  Fields
are split on commas (the claims involve no quoted fields); an absent file
is modelled by the caller passing whatever whitelist results.  `err`
surfaces the `AttributeError` of §`colGet`, which nothing in `main`
catches. -/
def load_whitelist (lines : List String) : Res (List String) :=
  match lines with
  | [] => .ok []
  | header :: dataLines => wlFold (splitComma header) dataLines []

/-- Declarative per-row contribution to the whitelist, used to
characterize `load_whitelist` on runs where it completes. -/
def contrib (fieldnames vals : List String) (x : String) : Prop :=
  ∃ host letter,
    colGet fieldnames vals "hostname_nn" = some host ∧
    colGet fieldnames vals "letter_nn" = some letter ∧
    host ≠ "" ∧
    (x = normalize (some host) ∨
      (letter ≠ "" ∧ letter.length = 1 ∧ pyIsAlpha letter = true ∧
        x = normalize (some (host ++ pyLowerStr letter))))

theorem blank_get (i : ℕ) (w : String) (h : [""].get? i = some w) : w = "" := by
  cases i with
  | zero => exact (Option.some.inj h).symm
  | succ n => simp at h

theorem rowGet_blank (fieldnames : List String) (hname v : String)
    (h : rowGet fieldnames [""] hname = some v) : v = "" := by
  unfold rowGet at h
  cases hl : (fieldnames.enum.filter (fun p => p.2 = hname)).getLast? with
  | none =>
    simp only [hl] at h
    exact (Option.some.inj h).symm
  | some p =>
    simp only [hl] at h
    exact blank_get p.1 v h

theorem colGet_blank (fieldnames : List String) (name v : String)
    (h : colGet fieldnames [""] name = some v) : v = "" := by
  unfold colGet at h
  cases hh : headerLookup fieldnames name with
  | none =>
    simp only [hh] at h
    exact (Option.some.inj h).symm
  | some hname =>
    simp only [hh] at h
    cases hr : rowGet fieldnames [""] hname with
    | none => simp only [hr] at h; exact Option.noConfusion h
    | some w =>
      simp only [hr, Option.some.injEq] at h
      have hw := rowGet_blank fieldnames hname w hr
      rw [← h, hw]
      rfl

theorem contrib_blank (fieldnames : List String) (x : String) :
    ¬ contrib fieldnames (splitComma "") x := by
  rintro ⟨host, letter, hh, -, hne, -⟩
  rw [show splitComma "" = [""] from rfl] at hh
  exact hne (colGet_blank fieldnames "hostname_nn" host hh)

theorem contrib_iff (fieldnames vals : List String) (x host letter : String)
    (hh : colGet fieldnames vals "hostname_nn" = some host)
    (hl : colGet fieldnames vals "letter_nn" = some letter) :
    contrib fieldnames vals x ↔
      (host ≠ "" ∧ (x = normalize (some host) ∨
        (letter ≠ "" ∧ letter.length = 1 ∧ pyIsAlpha letter = true ∧
          x = normalize (some (host ++ pyLowerStr letter))))) := by
  constructor
  · rintro ⟨h', l', hh', hl', hne, hx⟩
    rw [hh] at hh'
    rw [hl] at hl'
    obtain rfl : host = h' := Option.some.inj hh'
    obtain rfl : letter = l' := Option.some.inj hl'
    exact ⟨hne, hx⟩
  · rintro ⟨hne, hx⟩
    exact ⟨host, letter, hh, hl, hne, hx⟩

theorem wlStep_ok_mem (fieldnames targets : List String) (line : String)
    (t : List String) (h : wlStep fieldnames targets line = .ok t)
    (x : String) :
    x ∈ t ↔ x ∈ targets ∨ contrib fieldnames (splitComma line) x := by
  unfold wlStep at h
  cases hh : colGet fieldnames (splitComma line) "hostname_nn" with
  | none => simp only [hh] at h; exact Res.noConfusion h
  | some host =>
    simp only [hh] at h
    cases hl : colGet fieldnames (splitComma line) "letter_nn" with
    | none => simp only [hl] at h; exact Res.noConfusion h
    | some letter =>
      simp only [hl, Res.ok.injEq] at h
      subst h
      rw [contrib_iff fieldnames (splitComma line) x host letter hh hl]
      by_cases h1 : host = ""
      · simp [h1]
      · by_cases h2 : letter ≠ "" ∧ letter.length = 1 ∧ pyIsAlpha letter = true
        · simp only [if_neg h1, if_pos h2, mem_setAdd]
          constructor
          · rintro (rfl | rfl | hx)
            · exact Or.inr ⟨h1, Or.inr ⟨h2.1, h2.2.1, h2.2.2, rfl⟩⟩
            · exact Or.inr ⟨h1, Or.inl rfl⟩
            · exact Or.inl hx
          · rintro (hx | ⟨-, rfl | ⟨-, -, -, rfl⟩⟩)
            · exact Or.inr (Or.inr hx)
            · exact Or.inr (Or.inl rfl)
            · exact Or.inl rfl
        · simp only [if_neg h1, if_neg h2, mem_setAdd]
          constructor
          · rintro (rfl | hx)
            · exact Or.inr ⟨h1, Or.inl rfl⟩
            · exact Or.inl hx
          · rintro (hx | ⟨-, rfl | ⟨ha, hb, hc, rfl⟩⟩)
            · exact Or.inr hx
            · exact Or.inl rfl
            · exact absurd ⟨ha, hb, hc⟩ h2

theorem wlFold_ok_mem (fieldnames : List String) :
    ∀ (dataLines targets wl : List String),
      wlFold fieldnames dataLines targets = .ok wl →
      ∀ x, (x ∈ wl ↔
        x ∈ targets ∨ ∃ l ∈ dataLines, contrib fieldnames (splitComma l) x) := by
  intro dataLines
  induction dataLines with
  | nil =>
    intro targets wl h x
    simp only [wlFold, Res.ok.injEq] at h
    subst h
    simp
  | cons line rest ih =>
    intro targets wl h x
    unfold wlFold at h
    by_cases hb : line = ""
    · subst hb
      rw [if_pos rfl] at h
      rw [ih targets wl h x]
      simp only [List.mem_cons]
      constructor
      · rintro (hx | ⟨l, hl', hc⟩)
        · exact Or.inl hx
        · exact Or.inr ⟨l, Or.inr hl', hc⟩
      · rintro (hx | ⟨l, rfl | hl', hc⟩)
        · exact Or.inl hx
        · exact absurd hc (contrib_blank fieldnames x)
        · exact Or.inr ⟨l, hl', hc⟩
    · rw [if_neg hb] at h
      cases hs : wlStep fieldnames targets line with
      | err e => simp only [hs] at h; exact Res.noConfusion h
      | ok t =>
        simp only [hs] at h
        rw [ih t wl h x, wlStep_ok_mem fieldnames targets line t hs x]
        simp only [List.mem_cons]
        constructor
        · rintro ((hx | hc) | ⟨l, hl', hc⟩)
          · exact Or.inl hx
          · exact Or.inr ⟨line, Or.inl rfl, hc⟩
          · exact Or.inr ⟨l, Or.inr hl', hc⟩
        · rintro (hx | ⟨l, rfl | hl', hc⟩)
          · exact Or.inl (Or.inl hx)
          · exact Or.inl (Or.inr hc)
          · exact Or.inr ⟨l, hl', hc⟩

/-- C7 counterexample: a data row `WASP-43` under the header
`hostname_nn,letter_nn` carries a non-empty host value, yet
`load_whitelist` raises (`DictReader` pads the missing `letter_nn` with
`None` and `col`'s `.strip()` raises `AttributeError`): no whitelist is
produced at all, so the non-empty host does NOT contribute its normalized
name, refuting the claim's `every non-empty host contributes` clause. -/
theorem whitelist_short_row_raises :
    colGet (splitComma "hostname_nn,letter_nn") (splitComma "WASP-43")
      "hostname_nn" = some "WASP-43" ∧
    colGet (splitComma "hostname_nn,letter_nn") (splitComma "WASP-43")
      "letter_nn" = none ∧
    load_whitelist ["hostname_nn,letter_nn", "WASP-43"]
      = .err "AttributeError" := by
  refine ⟨by decide, by decide, by decide⟩

/-- C7 (amended): loading the CSV `hostname_nn,letter_nn` / `WASP-43,b`
completes and yields a whitelist containing both `"wasp43"` and
`"wasp43b"`; on every CSV the loader completes on, a name is in the
whitelist iff some data row contributes it — its normalized host name
when the host is non-empty, plus, exactly when the letter field is one
alphabetic character, the normalized host+letter concatenation; a data
row shorter than the header makes the loader raise `AttributeError`
instead of producing a whitelist. -/
theorem whitelist_host_and_letter :
    (load_whitelist ["hostname_nn,letter_nn", "WASP-43,b"]
        = .ok ["wasp43b", "wasp43"] ∧
      "wasp43" ∈ ["wasp43b", "wasp43"] ∧ "wasp43b" ∈ ["wasp43b", "wasp43"]) ∧
    (∀ (header : String) (dataLines wl : List String) (x : String),
      load_whitelist (header :: dataLines) = .ok wl →
      (x ∈ wl ↔ ∃ l ∈ dataLines, contrib (splitComma header) (splitComma l) x)) ∧
    load_whitelist ["hostname_nn,letter_nn", "WASP-43"]
      = .err "AttributeError" := by
  refine ⟨⟨by decide, by decide, by decide⟩, ?_, by decide⟩
  intro header dataLines wl x h
  have hm := wlFold_ok_mem (splitComma header) dataLines [] wl h x
  simpa using hm

/-- Witness for `whitelist_host_and_letter` at the concrete CSV. -/
theorem whitelist_host_and_letter_witness :
    load_whitelist ["hostname_nn,letter_nn", "WASP-43,b"]
      = .ok ["wasp43b", "wasp43"] ∧
    ("wasp43" ∈ ["wasp43b", "wasp43"] ↔
      ∃ l ∈ ["WASP-43,b"],
        contrib (splitComma "hostname_nn,letter_nn") (splitComma l) "wasp43") :=
  ⟨by decide,
    whitelist_host_and_letter.2.1 "hostname_nn,letter_nn" ["WASP-43,b"]
      ["wasp43b", "wasp43"] "wasp43" (by decide)⟩

/-- Python `round` for the values at hand, on an exact rational: nearest
integer, ties to even (the rounding `float.__round__` uses). -/
def pyRound (q : ℚ) : ℤ :=
  if q - ⌊q⌋ < 1/2 then ⌊q⌋
  else if 1/2 < q - ⌊q⌋ then ⌊q⌋ + 1
  else if ⌊q⌋ % 2 = 0 then ⌊q⌋ else ⌊q⌋ + 1

/-- Slice count of `fetch_jwst_exoplanets`, line 88:
`max(1, int(round(total_hours / float(slice_hours))))`. -/
def numSlices (start endv sliceH : ℚ) : ℕ :=
  max 1 (pyRound ((endv - start) / sliceH)).toNat

/-- Lower slice bound, line 90–91: `t0 = t1 - slice_hours`, clamped to
`start_dt`. -/
def clampT0 (start sliceH t1 : ℚ) : ℚ :=
  if t1 - sliceH < start then start else t1 - sliceH

/-- Skeleton of the slice loop (lines 89–91, 106–107): step back from `t1`
by `slice_hours` with clamping; after the body, `t1 = t0`, and the loop
breaks once `t1 <= start_dt`, or when the iteration count runs out. -/
def windowSlicesAux (start sliceH : ℚ) : ℕ → ℚ → List (ℚ × ℚ)
  | 0, _ => []
  | n + 1, t1 =>
    (clampT0 start sliceH t1, t1) ::
      (if clampT0 start sliceH t1 ≤ start then []
       else windowSlicesAux start sliceH n (clampT0 start sliceH t1))

/-- The sequence of `(sliceStart, sliceEnd)` pairs the fetch loop visits. -/
def windowSlices (start endv sliceH : ℚ) : List (ℚ × ℚ) :=
  windowSlicesAux start sliceH (numSlices start endv sliceH) endv

theorem pyRound_le_ceil (q : ℚ) : pyRound q ≤ ⌈q⌉ := by
  have hfc : ⌊q⌋ ≤ ⌈q⌉ := Int.floor_le_ceil q
  unfold pyRound
  by_cases h1 : q - ⌊q⌋ < 1/2
  · rw [if_pos h1]; exact hfc
  · have hfq : (⌊q⌋ : ℚ) < q := by
      have := not_lt.mp h1
      linarith
    have hlt : ⌊q⌋ < ⌈q⌉ := Int.lt_ceil.mpr hfq
    rw [if_neg h1]
    by_cases h2 : 1/2 < q - ⌊q⌋
    · rw [if_pos h2]; omega
    · rw [if_neg h2]
      by_cases h3 : ⌊q⌋ % 2 = 0
      · rw [if_pos h3]; exact hfc
      · rw [if_neg h3]; omega

theorem windowSlicesAux_succ (start sliceH : ℚ) (n : ℕ) (t1 : ℚ) :
    windowSlicesAux start sliceH (n + 1) t1 =
      (clampT0 start sliceH t1, t1) ::
        (if clampT0 start sliceH t1 ≤ start then []
         else windowSlicesAux start sliceH n (clampT0 start sliceH t1)) := rfl

theorem windowSlicesAux_lb (start sliceH : ℚ) :
    ∀ (n : ℕ) (t1 : ℚ), ∀ p ∈ windowSlicesAux start sliceH n t1, start ≤ p.1 := by
  intro n
  induction n with
  | zero => intro t1 p hp; simp [windowSlicesAux] at hp
  | succ n ih =>
    intro t1 p hp
    rw [windowSlicesAux_succ] at hp
    rcases List.mem_cons.mp hp with rfl | hp'
    · show start ≤ clampT0 start sliceH t1
      unfold clampT0
      by_cases h : t1 - sliceH < start
      · rw [if_pos h]
      · rw [if_neg h]; exact not_lt.mp h
    · by_cases hst : clampT0 start sliceH t1 ≤ start
      · rw [if_pos hst] at hp'; simp at hp'
      · rw [if_neg hst] at hp'; exact ih _ p hp'

theorem windowSlicesAux_length (start sliceH : ℚ) (hS : 0 < sliceH) :
    ∀ (n : ℕ) (t1 : ℚ), start < t1 →
      (windowSlicesAux start sliceH n t1).length =
        min n (Int.toNat ⌈(t1 - start) / sliceH⌉) := by
  intro n
  induction n with
  | zero => intro t1 ht; simp [windowSlicesAux]
  | succ n ih =>
    intro t1 ht
    have hq : 0 < (t1 - start) / sliceH := div_pos (by linarith) hS
    rw [windowSlicesAux_succ]
    by_cases hc : t1 - sliceH < start
    · have ht0 : clampT0 start sliceH t1 = start := by
        unfold clampT0; rw [if_pos hc]
      rw [ht0, if_pos le_rfl]
      have hle : (t1 - start) / sliceH ≤ 1 := by
        rw [div_le_one hS]; linarith
      have hceil : ⌈(t1 - start) / sliceH⌉ = 1 := by
        rw [Int.ceil_eq_iff]
        constructor
        · push_cast; linarith
        · push_cast; linarith
      rw [hceil]
      simp
    · have ht0 : clampT0 start sliceH t1 = t1 - sliceH := by
        unfold clampT0; rw [if_neg hc]
      rw [ht0]
      by_cases hstop : t1 - sliceH ≤ start
      · have heq : t1 - sliceH = start := le_antisymm hstop (not_lt.mp hc)
        rw [if_pos hstop]
        have hone : (t1 - start) / sliceH = 1 := by
          have : t1 - start = sliceH := by linarith
          rw [this, div_self (ne_of_gt hS)]
        rw [hone]
        simp
      · have ht1' : start < t1 - sliceH := not_le.mp hstop
        rw [if_neg hstop]
        have hrec := ih (t1 - sliceH) ht1'
        have hshift : (t1 - sliceH - start) / sliceH = (t1 - start) / sliceH - 1 := by
          field_simp
          ring
        have hgt1 : 1 < (t1 - start) / sliceH := by
          rw [lt_div_iff₀ hS]; linarith
        have hge2 : 2 ≤ ⌈(t1 - start) / sliceH⌉ := by
          have := Int.lt_ceil.mpr (by push_cast; linarith :
            ((1 : ℤ) : ℚ) < (t1 - start) / sliceH)
          omega
        rw [List.length_cons, hrec, hshift, Int.ceil_sub_one]
        omega

/-- C6: for a 24-hour window with 6-hour slices (any start instant,
times in hours), the loop produces exactly these 4 slices, each 6 wide,
walking back from `end`; consecutive slices abut (`no gaps, no overlaps`),
the first ends at `end` and the last starts at `start`. -/
theorem window_24h_6h_slices (s : ℚ) :
    windowSlices s (s + 24) 6 =
      [(s + 18, s + 24), (s + 12, s + 18), (s + 6, s + 12), (s, s + 6)] ∧
    (windowSlices s (s + 24) 6).length = 4 ∧
    (∀ p ∈ windowSlices s (s + 24) 6, p.2 - p.1 = 6) ∧
    List.Chain' (fun a b => a.1 = b.2) (windowSlices s (s + 24) 6) ∧
    (windowSlices s (s + 24) 6).head? = some (s + 18, s + 24) ∧
    (windowSlices s (s + 24) 6).getLast? = some (s, s + 6) := by
  have hn : numSlices s (s + 24) 6 = 4 := by
    unfold numSlices
    have h4 : (s + 24 - s) / 6 = (4 : ℚ) := by ring
    rw [h4]
    have : pyRound 4 = 4 := by
      unfold pyRound
      norm_num
    rw [this]
    rfl
  have c1 : clampT0 s 6 (s + 24) = s + 18 := by
    unfold clampT0; rw [if_neg (by linarith)]; ring
  have c2 : clampT0 s 6 (s + 18) = s + 12 := by
    unfold clampT0; rw [if_neg (by linarith)]; ring
  have c3 : clampT0 s 6 (s + 12) = s + 6 := by
    unfold clampT0; rw [if_neg (by linarith)]; ring
  have c4 : clampT0 s 6 (s + 6) = s := by
    unfold clampT0; rw [if_neg (by linarith)]; ring
  have he : windowSlices s (s + 24) 6 =
      [(s + 18, s + 24), (s + 12, s + 18), (s + 6, s + 12), (s, s + 6)] := by
    unfold windowSlices
    rw [hn]
    rw [show (4 : ℕ) = 3 + 1 from rfl, windowSlicesAux_succ, c1,
      if_neg (by linarith)]
    rw [show (3 : ℕ) = 2 + 1 from rfl, windowSlicesAux_succ, c2,
      if_neg (by linarith)]
    rw [show (2 : ℕ) = 1 + 1 from rfl, windowSlicesAux_succ, c3,
      if_neg (by linarith)]
    rw [windowSlicesAux_succ, c4, if_pos le_rfl]
  refine ⟨he, ?_, ?_, ?_, ?_, ?_⟩
  · rw [he]; rfl
  · intro p hp
    rw [he] at hp
    simp only [List.mem_cons, List.not_mem_nil, or_false] at hp
    rcases hp with rfl | rfl | rfl | rfl <;> ring
  · rw [he]
    refine List.Chain'.cons ?_ (List.Chain'.cons ?_ (List.Chain'.cons ?_ ?_)) <;>
      simp
  · rw [he]; rfl
  · rw [he]; rfl

/-- C2 counterexample: a 5-hour window with 4-hour slices produces a single
slice, while the claimed `ceil` formula demands 2. -/
theorem window_slice_count_not_ceil :
    (windowSlices 0 5 4).length = 1 ∧
    max 1 (Int.toNat ⌈((5 : ℚ) - 0) / 4⌉) = 2 ∧
    (windowSlices 0 5 4).length ≠ max 1 (Int.toNat ⌈((5 : ℚ) - 0) / 4⌉) := by
  have hc : ⌈((5 : ℚ) - 0) / 4⌉ = 2 := by
    rw [Int.ceil_eq_iff]
    norm_num
  have hround : pyRound (((5 : ℚ) - 0) / 4) = 1 := by
    have h54 : ((5 : ℚ) - 0) / 4 = 5/4 := by norm_num
    rw [h54]
    unfold pyRound
    have hf : ⌊(5/4 : ℚ)⌋ = 1 := by
      rw [Int.floor_eq_iff]
      norm_num
    rw [hf, if_pos (by norm_num)]
  have hlen : (windowSlices 0 5 4).length = 1 := by
    unfold windowSlices numSlices
    rw [show (5 : ℚ) - 0 = 5 - 0 from rfl, hround]
    rw [show max 1 (Int.toNat 1) = 0 + 1 from rfl, windowSlicesAux_succ]
    rw [show clampT0 0 4 5 = 1 from by unfold clampT0; rw [if_neg (by norm_num)]; norm_num]
    rw [if_neg (by norm_num)]
    rfl
  refine ⟨hlen, ?_, ?_⟩
  · rw [hc]; rfl
  · rw [hlen, hc]; decide

/-- C2 (amended): for a positive slice length and a window `start ≤ end`
(times in hours), the slice loop produces
`max(1, round(windowLength / sliceLength))` slices — Python `round`,
nearest with ties to even, not `ceil` — and no slice's lower bound precedes
the window start. -/
theorem window_slice_count_and_clamp (start endv sliceH : ℚ)
    (hS : 0 < sliceH) (hW : start ≤ endv) :
    (windowSlices start endv sliceH).length =
      max 1 (pyRound ((endv - start) / sliceH)).toNat ∧
    ∀ p ∈ windowSlices start endv sliceH, start ≤ p.1 := by
  constructor
  · rcases eq_or_lt_of_le hW with heq | hlt
    · subst heq
      have h0 : (start - start) / sliceH = 0 := by
        rw [sub_self, zero_div]
      unfold windowSlices numSlices
      rw [h0]
      have hr0 : pyRound 0 = 0 := by
        unfold pyRound
        norm_num
      rw [hr0]
      rw [show max 1 (Int.toNat 0) = 0 + 1 from rfl, windowSlicesAux_succ]
      have hcl : clampT0 start sliceH start = start := by
        unfold clampT0; rw [if_pos (by linarith)]
      rw [hcl, if_pos le_rfl]
      rfl
    · have hq : 0 < (endv - start) / sliceH := div_pos (by linarith) hS
      have hlen := windowSlicesAux_length start sliceH hS
        (numSlices start endv sliceH) endv hlt
      unfold windowSlices
      rw [hlen]
      have hceil1 : 1 ≤ ⌈(endv - start) / sliceH⌉ := Int.ceil_pos.mpr hq
      have hle : pyRound ((endv - start) / sliceH) ≤ ⌈(endv - start) / sliceH⌉ :=
        pyRound_le_ceil _
      unfold numSlices
      omega
  · exact windowSlicesAux_lb start sliceH _ endv

/-- Witness for `window_slice_count_and_clamp` at a 24h/6h window. -/
theorem window_slice_count_and_clamp_witness :
    (0 : ℚ) < 6 ∧ (0 : ℚ) ≤ 24 ∧
    (windowSlices 0 24 6).length = max 1 (pyRound ((24 - 0) / 6)).toNat :=
  ⟨by norm_num, by norm_num,
    (window_slice_count_and_clamp 0 24 6 (by norm_num) (by norm_num)).1⟩

/-- Observable trace of one `call_mast` invocation: how many attempts were
made, which sleeps (= warnings, one per sleep) were emitted, and the final
outcome. -/
structure RetryTrace (α : Type) where
  attempts : ℕ
  sleeps : List ℚ
  result : Res α
deriving DecidableEq, Repr

/-- Body of the retry loop of `call_mast` (source lines 65–82):
`for attempt in range(retries+1)`, with `fuel` the remaining iterations
(`retries + 1 - attempt`, so the `fuel = 0` base is never reached from
`call_mast`).  On success return; on failure warn and sleep
`backoff ** attempt` seconds if `attempt < retries`, else re-raise. -/
def callGo {α : Type} (client : ℕ → Res α) (retries : ℕ) (backoff : ℚ) :
    ℕ → ℕ → RetryTrace α
  | _, 0 => ⟨0, [], .err ""⟩
  | attempt, fuel + 1 =>
    match client attempt with
    | .ok v => ⟨1, [], .ok v⟩
    | .err e =>
      if attempt < retries then
        let t := callGo client retries backoff (attempt + 1) fuel
        ⟨t.attempts + 1, backoff ^ attempt :: t.sleeps, t.result⟩
      else ⟨1, [], .err e⟩

/-- `call_mast` against a stubbed transport: the stub maps the 0-based
attempt index to that attempt's outcome. -/
def call_mast {α : Type} (client : ℕ → Res α) (retries : ℕ) (backoff : ℚ) :
    RetryTrace α :=
  callGo client retries backoff 0 (retries + 1)

theorem callGo_attempts_le {α : Type} (client : ℕ → Res α) (retries : ℕ)
    (backoff : ℚ) : ∀ (fuel attempt : ℕ),
      (callGo client retries backoff attempt fuel).attempts ≤ fuel := by
  intro fuel
  induction fuel with
  | zero => intro attempt; simp [callGo]
  | succ fuel ih =>
    intro attempt
    unfold callGo
    rcases hce : client attempt with v | e
    · simp [hce]
    · simp only [hce]
      by_cases h : attempt < retries
      · rw [if_pos h]
        have := ih (attempt + 1)
        simpa using Nat.succ_le_succ this
      · rw [if_neg h]
        simp

/-- Stub that fails on attempts 0 and 1 and succeeds afterwards. -/
def failTwice : ℕ → Res ℕ :=
  fun a => if a < 2 then .err "boom" else .ok 42

/-- Stub that fails on every attempt. -/
def alwaysFail : ℕ → Res ℕ :=
  fun _ => .err "boom"

/-- C4: with `retries = n` at most `n + 1` attempts are made, each failed
non-final attempt sleeps `backoff ^ attempt` seconds (one warning per
sleep); the fail-twice stub with `retries = 3` succeeds after 3 attempts
with exactly 2 warnings (sleeps `2^0, 2^1`), and the always-fail stub with
`retries = 2` raises after exactly 3 attempts, the failure propagating. -/
theorem call_mast_retry_behaviour :
    (∀ (α : Type) (client : ℕ → Res α) (retries : ℕ) (backoff : ℚ),
      (call_mast client retries backoff).attempts ≤ retries + 1) ∧
    call_mast failTwice 3 2 = ⟨3, [1, 2], .ok 42⟩ ∧
    call_mast alwaysFail 2 2 = ⟨3, [1, 2], .err "boom"⟩ := by
  refine ⟨?_, ?_, ?_⟩
  · intro α client retries backoff
    exact callGo_attempts_le client retries backoff (retries + 1) 0
  · decide
  · decide

/-- One slice's pagination loop (source lines 94–105) against a stubbed
archive: the list holds the successive page results the archive returns
for pages `page, page+1, ...` of this slice; an exhausted stub returns an
empty page (always short for the positive page sizes the claims use).
Returns the requested page numbers and either the extended accumulator or
the first propagated failure (which, like a Python exception, loses the
accumulator). -/
def pageLoop (wl : List String) (pagesize : ℕ) :
    List (Res (List Row)) → ℕ → List Row → List ℕ × Res (List Row)
  | [], page, acc => ([page], .ok acc)
  | .err e :: _, page, _ => ([page], .err e)
  | .ok data :: rest, page, acc =>
    if data.length < pagesize then ([page], .ok (acc ++ filterRows wl data))
    else
      let t := pageLoop wl pagesize rest (page + 1) (acc ++ filterRows wl data)
      (page :: t.1, t.2)

/-- A row whose fields are all null; page contents are irrelevant to the
pagination-termination claim. -/
def dummyRow : Row :=
  ⟨none, none, none, none, none, none, none, none⟩

/-- A page of `n` rows. -/
def mkPage (n : ℕ) : List Row :=
  List.replicate n dummyRow

/-- C5: pages are requested starting at 1 with increasing numbers; a page
shorter than `pagesize` stops the loop at once, a full page always
triggers one more request; for page sizes `[100, 100, 37]` with
`pagesize = 100` exactly the 3 requests `1, 2, 3` are issued. -/
theorem paginator_requests :
    (pageLoop [] 100 [.ok (mkPage 100), .ok (mkPage 100), .ok (mkPage 37)] 1 []).1
      = [1, 2, 3] ∧
    (∀ (wl : List String) (ps page : ℕ) (acc data : List Row)
        (rest : List (Res (List Row))), data.length < ps →
      pageLoop wl ps (.ok data :: rest) page acc =
        ([page], .ok (acc ++ filterRows wl data))) ∧
    (∀ (wl : List String) (ps page : ℕ) (acc data : List Row)
        (rest : List (Res (List Row))), ¬ data.length < ps →
      (pageLoop wl ps (.ok data :: rest) page acc).1 =
        page :: (pageLoop wl ps rest (page + 1) (acc ++ filterRows wl data)).1) := by
  refine ⟨by decide, ?_, ?_⟩
  · intro wl ps page acc data rest h
    simp only [pageLoop]
    rw [if_pos h]
  · intro wl ps page acc data rest h
    simp only [pageLoop]
    rw [if_neg h]

/-- Witness for `paginator_requests` at concrete pages. -/
theorem paginator_requests_witness :
    ((mkPage 37).length < 100 ∧
      pageLoop ["wasp43"] 100 [.ok (mkPage 37)] 1 [] =
        ([1], .ok ([] ++ filterRows ["wasp43"] (mkPage 37)))) ∧
    (¬ (mkPage 100).length < 100 ∧
      (pageLoop ["wasp43"] 100 [.ok (mkPage 100)] 1 []).1 =
        1 :: (pageLoop ["wasp43"] 100 [] 2 ([] ++ filterRows ["wasp43"] (mkPage 100))).1) :=
  ⟨⟨by decide, paginator_requests.2.1 ["wasp43"] 100 1 [] (mkPage 37) [] (by decide)⟩,
   ⟨by decide, paginator_requests.2.2 ["wasp43"] 100 1 [] (mkPage 100) [] (by decide)⟩⟩

/-- The slice loop of `fetch_jwst_exoplanets` (lines 89–108) against a
stubbed archive keyed by 0-based slice index; the fuel argument is the
remaining iteration count of `for _ in range(slices)`.  After a slice the
loop continues at `t1 = t0` unless `t1 <= start_dt`.  A failing call
raises: accumulated rows are lost and the error propagates, as a Python
exception does. -/
def sliceLoop (archive : ℕ → List (Res (List Row))) (wl : List String)
    (start sliceH : ℚ) (pagesize : ℕ) :
    ℕ → ℚ → ℕ → List Row → Res (List Row)
  | 0, _, _, acc => .ok acc
  | n + 1, t1, i, acc =>
    match (pageLoop wl pagesize (archive i) 1 acc).2 with
    | .err e => .err e
    | .ok acc2 =>
      if clampT0 start sliceH t1 ≤ start then .ok acc2
      else sliceLoop archive wl start sliceH pagesize n (clampT0 start sliceH t1) (i + 1) acc2

/-- `fetch_jwst_exoplanets` (lines 84–115): run the slice loop over
`max(1, round(total/slice))` slices, then de-duplicate; a raised failure
propagates to the caller. -/
def fetch_jwst_exoplanets (archive : ℕ → List (Res (List Row)))
    (start endv : ℚ) (wl : List String) (sliceH : ℚ) (pagesize : ℕ) :
    Res (List Row) :=
  match sliceLoop archive wl start sliceH pagesize
      (numSlices start endv sliceH) endv 0 [] with
  | .ok rows => .ok (dedupRows rows)
  | .err e => .err e

/-- Python naive UTC `datetime` as `main` uses it. -/
structure PyDateTime where
  year : ℕ
  month : ℕ
  day : ℕ
  hour : ℕ
  minute : ℕ
  second : ℕ
  microsecond : ℕ
deriving DecidableEq, Repr

/-- Zero-padding of a natural to `w` digits, as Python `%0wd`. -/
def padNum (w n : ℕ) : String :=
  ⟨List.replicate (w - (Nat.repr n).length) '0'⟩ ++ Nat.repr n

/-- Python `datetime.isoformat()` on a naive datetime:
`YYYY-MM-DDTHH:MM:SS`, with `.ffffff` appended only when `microsecond` is
nonzero. -/
def isoformat (d : PyDateTime) : String :=
  padNum 4 d.year ++ "-" ++ padNum 2 d.month ++ "-" ++ padNum 2 d.day ++ "T" ++
    padNum 2 d.hour ++ ":" ++ padNum 2 d.minute ++ ":" ++ padNum 2 d.second ++
    (if d.microsecond = 0 then "" else "." ++ padNum 6 d.microsecond)

/-- `dt.replace(microsecond=0)`. -/
def replaceMicro0 (d : PyDateTime) : PyDateTime :=
  { d with microsecond := 0 }

/-- The timestamp string `main` serializes:
`dt.replace(microsecond=0).isoformat() + "Z"`. -/
def stampZ (d : PyDateTime) : String :=
  isoformat (replaceMicro0 d) ++ "Z"

/-- The JSON envelope `main` writes. -/
structure Envelope where
  generated_utc : String
  window_utc : List String
  jwst : List Row
  jwst_error : Option String
deriving DecidableEq, Repr

/-- The envelope `main` builds and writes (lines 128–155): `endDt` is
`datetime.utcnow()` captured once at run start, `startDt = endDt − window`
(datetime arithmetic external to the claims); `fetchResult` is the outcome
of the `try` block around `fetch_jwst_exoplanets`.  On success the rows
land in `jwst`; on failure `jwst` keeps its initial `[]` and the message
lands in `jwst_error`.  The file is written and the process exits normally
in both branches. -/
def runMain (startDt endDt : PyDateTime) (fetchResult : Res (List Row)) :
    Envelope :=
  match fetchResult with
  | .ok rows => ⟨stampZ endDt, [stampZ startDt, stampZ endDt], rows, none⟩
  | .err e => ⟨stampZ endDt, [stampZ startDt, stampZ endDt], [], some e⟩

/-- A whitelisted row served by the first slice of the failing-archive
scenario. -/
def rowA : Row :=
  ⟨some "JWST", some (.jnum 1), some (.jstr "x"), some "p1", some "NIRCam",
    some "WASP-43b", some (.jnum 60000), some (.jnum 60001)⟩

/-- Stub archive: slice 0 serves one short page holding `rowA`; every later
slice exhausts its retries and raises `boom`. -/
def failingArchive : ℕ → List (Res (List Row)) :=
  fun i => if i = 0 then [.ok [rowA]] else [.err "boom"]

/-- Run start / window bounds for the failure scenario. -/
def dtStart0 : PyDateTime := ⟨2026, 10, 11, 0, 0, 0, 0⟩

def dtEnd0 : PyDateTime := ⟨2026, 10, 12, 0, 0, 0, 0⟩

/-- C1 counterexample: with a 12-hour window in 6-hour slices, slice 0
yields the filtered row `rowA`, slice 1 exhausts retries; the envelope the
run writes has `jwst_error = "boom"` but its `jwst` array is EMPTY — the
row collected from the first slice is lost, not kept.  (The rows live in
`fetch_jwst_exoplanets`'s local accumulator; the exception propagates to
`main`, whose `out["jwst"]` keeps its initial `[]`.) -/
theorem numSlices_0_12_6 : numSlices 0 12 6 = 2 := by
  unfold numSlices pyRound
  have h2 : ((12 : ℚ) - 0) / 6 = ((2 : ℤ) : ℚ) := by norm_num
  rw [h2, Int.floor_intCast]
  rw [if_pos (by norm_num)]
  rfl

theorem fetch_failing_archive_err :
    fetch_jwst_exoplanets failingArchive 0 12 ["wasp43b"] 6 80 = .err "boom" := by
  have hp0 : (pageLoop ["wasp43b"] 80 (failingArchive 0) 1 []).2 = .ok [rowA] := by
    decide
  have hp1 : (pageLoop ["wasp43b"] 80 (failingArchive 1) 1 [rowA]).2 = .err "boom" := by
    decide
  have hc1 : clampT0 0 6 12 = 6 := by
    unfold clampT0; rw [if_neg (by norm_num)]; norm_num
  unfold fetch_jwst_exoplanets
  rw [numSlices_0_12_6, show (2 : ℕ) = 1 + 1 from rfl]
  simp only [sliceLoop, hp0]
  rw [hc1, if_neg (by norm_num : ¬ (6 : ℚ) ≤ 0)]
  simp only [sliceLoop, hp1]

/-- C1 counterexample: with a 12-hour window in 6-hour slices, slice 0
yields the filtered row `rowA`, slice 1 exhausts retries; the envelope the
run writes has `jwst_error = "boom"` but its `jwst` array is EMPTY — the
row collected from the first slice is lost, not kept.  (The rows live in
`fetch_jwst_exoplanets`'s local accumulator; the exception propagates to
`main`, whose `out["jwst"]` keeps its initial `[]`.) -/
theorem fetch_failure_drops_accumulated_rows :
    (pageLoop ["wasp43b"] 80 (failingArchive 0) 1 []).2 = .ok [rowA] ∧
    fetch_jwst_exoplanets failingArchive 0 12 ["wasp43b"] 6 80 = .err "boom" ∧
    (runMain dtStart0 dtEnd0
      (fetch_jwst_exoplanets failingArchive 0 12 ["wasp43b"] 6 80)).jwst = [] ∧
    rowA ∉ (runMain dtStart0 dtEnd0
      (fetch_jwst_exoplanets failingArchive 0 12 ["wasp43b"] 6 80)).jwst ∧
    (runMain dtStart0 dtEnd0
      (fetch_jwst_exoplanets failingArchive 0 12 ["wasp43b"] 6 80)).jwst_error
      = some "boom" := by
  refine ⟨by decide, fetch_failing_archive_err, ?_, ?_, ?_⟩ <;>
    rw [fetch_failing_archive_err] <;> simp [runMain]

/-- C1 (amended): on an unrecoverable fetch failure the run still writes a
complete envelope and exits normally, with `jwst_error` set to the failure
message — but `jwst` is the empty array: rows accumulated from earlier
slices are discarded, not kept. -/
theorem fetch_failure_envelope (s e : PyDateTime) (fr : Res (List Row))
    (msg : String) (h : fr = .err msg) :
    runMain s e fr =
      ⟨stampZ e, [stampZ s, stampZ e], [], some msg⟩ := by
  rw [h]
  rfl

/-- Witness for `fetch_failure_envelope` at the concrete failing fetch. -/
theorem fetch_failure_envelope_witness :
    fetch_jwst_exoplanets failingArchive 0 12 ["wasp43b"] 6 80 = .err "boom" ∧
    runMain dtStart0 dtEnd0
        (fetch_jwst_exoplanets failingArchive 0 12 ["wasp43b"] 6 80) =
      ⟨stampZ dtEnd0, [stampZ dtStart0, stampZ dtEnd0], [], some "boom"⟩ :=
  ⟨fetch_failing_archive_err,
    fetch_failure_envelope dtStart0 dtEnd0 _ "boom" fetch_failing_archive_err⟩

/-- A later instant at which the failure-scenario run actually finishes. -/
def dtFinish0 : PyDateTime := ⟨2026, 10, 12, 0, 3, 5, 0⟩

/-- C9 counterexample: `generated_utc` is the single `utcnow()` captured at
run START (line 128, before any fetching), not the instant the run
finished: for a run starting at `dtEnd0` and finishing at `dtFinish0`, the
serialized field differs from the finish instant's timestamp. -/
theorem generated_utc_not_finish_instant :
    dtEnd0 ≠ dtFinish0 ∧
    (runMain dtStart0 dtEnd0 (.ok [])).generated_utc ≠ stampZ dtFinish0 ∧
    (runMain dtStart0 dtEnd0 (.ok [])).generated_utc = stampZ dtEnd0 := by
  refine ⟨by decide, by decide, rfl⟩

/-- C9 (amended): `generated_utc` is the run-start instant (the same
`utcnow()` that is the window end), microseconds zeroed, serialized
ISO-8601 with a trailing `Z`; concretely
`2026-10-12 03:04:05.999999` stamps as `"2026-10-12T03:04:05Z"`. -/
theorem generated_utc_is_run_start :
    (∀ (s e : PyDateTime) (fr : Res (List Row)),
      (runMain s e fr).generated_utc = stampZ e ∧
      (runMain s e fr).window_utc.getLast? =
        some ((runMain s e fr).generated_utc) ∧
      ∃ p, (runMain s e fr).generated_utc = p ++ "Z") ∧
    stampZ ⟨2026, 10, 12, 3, 4, 5, 999999⟩ = "2026-10-12T03:04:05Z" := by
  constructor
  · intro s e fr
    cases fr with
    | ok rows => exact ⟨rfl, rfl, ⟨isoformat (replaceMicro0 e), rfl⟩⟩
    | err msg => exact ⟨rfl, rfl, ⟨isoformat (replaceMicro0 e), rfl⟩⟩
  · decide

end MastFetch
